import Mathlib

/-!
Verification of the archive-assembly subsystem of `build_wheels.py`
(LilyPond-wheels).  The script downloads a LilyPond release, unpacks it,
injects METADATA, WHEEL, a wrapper module `lilypond.py` and a RECORD
manifest, and zips everything with a two-pass deterministic ordering.

Shallow embedding notes:
* An archive member is modelled by `Member`: the ZipInfo filename
  (path relative to the unpacked tree), the timestamp captured by
  `ZipInfo.from_file` (an abstract `Nat`), the mode bits, and the raw
  content bytes (modelled as a `String`; only lengths, hashes and
  equality of contents matter for the claims).
* `ZipInfo.file_size` equals the byte length of the contents for a
  regular file read without races, so the RECORD size field is modelled
  as `toString m.contents.length`.
* `os.walk` discovers every regular file under the unpacked tree in an
  unspecified order; the walk result is modelled as the input list
  `sourceFiles` (the unpacked release files, including the `.keep`
  placeholder) followed by the three files the script wrote before the
  walk (METADATA, WHEEL, `lilypond.py`).  No claim depends on the walk
  order itself: the first sort pass is alphabetical.
* `hashlib.sha256(...).hexdigest()` is an external primitive; it is
  abstracted as a parameter `hash : String → String` applied to the
  exact stored contents, exactly as the script applies sha256 to the
  bytes it stores.
* Python's `list.sort` is a stable sort; it is embedded as insertion
  sort (`stableSort`), the canonical stable sort.
* `csv.writer` on a file opened with `newline=""` quotes a field iff it
  contains the delimiter, the quote char, or a line-terminator char
  (QUOTE_MINIMAL), doubles embedded quotes, and ends each row with
  a literal CRLF; `csvContent` models exactly that.
* The `assert len(lib_python_dirs) == 1` precondition aborts the build;
  an aborted build is modelled by `build` returning `none` (no archive
  member list and no output name are produced).
-/

namespace LilyPondWheels

/-- One archive member: ZipInfo metadata (filename, timestamp, mode bits)
paired with the raw contents that `ZipFile.writestr` stores. -/
structure Member where
  filename : String
  date_time : Nat
  mode : Nat
  contents : String
deriving DecidableEq

/-- Mode bits that stand for the fixed creation mode of files the script
itself writes (`write_text` / `touch` under one umask). -/
def defaultMode : Nat := 420

/-- Combined tag `py3-none-<plat_tag>` (line 41 of the script). -/
def fullTag (platTag : String) : String := "py3-none-" ++ platTag

/-- Name of the metadata directory, `lilypond-<version>.dist-info`
(line 64). -/
def distInfoBasename (version : String) : String :=
  "lilypond-" ++ version ++ ".dist-info"

/-- Contents of the METADATA file (lines 71-81): fixed core-metadata
fields followed by a blank line and the verbatim description. -/
def metadataContents (version description : String) : String :=
  "Metadata-Version: 2.1\nName: lilypond\nVersion: " ++ version ++
  "\nHome-page: https://gitlab.com/jeanas/lilypond-wheels.git\n" ++
  "License: GPL-3.0-or-later\n" ++
  "Summary: A redistribution of LilyPond to use it easily from Python code.\n" ++
  "Description-Content-Type: text/markdown\n\n" ++ description ++ "\n"

/-- Contents of the WHEEL file (lines 86-92). -/
def wheelContents (platTag : String) (buildNumber : Nat) : String :=
  "Wheel-Version: 1.0\nGenerator: lilypond_custom_generator\n" ++
  "Root-Is-Purelib: false\nTag: " ++ fullTag platTag ++
  "\nBuild: " ++ toString buildNumber ++ "\n"

/-- Contents of the wrapper module `lilypond.py` (lines 97-102). -/
def moduleContents : String :=
  "\nfrom pathlib import Path\n\ndef executable(script=\x22lilypond\x22):\n" ++
  "    return Path(__file__).parent / \x22lilypond-binaries\x22 / \x22bin\x22 / script\n"

/-- Relative path of the METADATA member. -/
def metadataPath (version : String) : String :=
  distInfoBasename version ++ "/METADATA"

/-- Relative path of the WHEEL member. -/
def wheelPath (version : String) : String :=
  distInfoBasename version ++ "/WHEEL"

/-- Relative path of the RECORD member. -/
def recordPath (version : String) : String :=
  distInfoBasename version ++ "/RECORD"

/-- Relative path of the wrapper module, written at the tree root
(line 96). -/
def modulePath : String := "lilypond.py"

/-- The METADATA archive member as the walk finds it. -/
def metadataMember (version description : String) (tMeta : Nat) : Member :=
  ⟨metadataPath version, tMeta, defaultMode,
    metadataContents version description⟩

/-- The WHEEL archive member as the walk finds it. -/
def wheelMember (version platTag : String) (buildNumber tWheel : Nat) :
    Member :=
  ⟨wheelPath version, tWheel, defaultMode, wheelContents platTag buildNumber⟩

/-- The wrapper-module archive member as the walk finds it. -/
def moduleMember (tModule : Nat) : Member :=
  ⟨modulePath, tModule, defaultMode, moduleContents⟩

/-- Files found by the `os.walk` at line 109: the unpacked source tree
plus the three files the script wrote into the tree before walking
(METADATA, WHEEL and the wrapper module).  The timestamps `tMeta`,
`tWheel`, `tModule` are the write times captured by
`ZipInfo.from_file`. -/
def injectedFiles (sourceFiles : List Member)
    (version platTag description : String) (buildNumber : Nat)
    (tMeta tWheel tModule : Nat) : List Member :=
  sourceFiles ++
    [metadataMember version description tMeta,
     wheelMember version platTag buildNumber tWheel,
     moduleMember tModule]

/-- The RECORD row recorded for one walked file (lines 116-117):
relative path, `sha256=` plus the hex digest of the contents, and the
decimal file size. -/
def recordRow (hash : String → String) (m : Member) :
    String × String × String :=
  (m.filename, "sha256=" ++ hash m.contents, toString m.contents.length)

/-- All RECORD rows, one per walked file, in walk order (lines 109-117). -/
def recordTuples (hash : String → String) (files : List Member) :
    List (String × String × String) :=
  files.map (recordRow hash)

/-- Whether `csv.writer` (QUOTE_MINIMAL) must quote a field: it contains
the delimiter, the quote character, or a character of the `\r\n` line
terminator. -/
def csvNeedsQuote (f : String) : Bool :=
  f.data.any (fun c => c == ',' || c == '\x22' || c == '\r' || c == '\n')

/-- Double every quote character (csv `doublequote=True`). -/
def csvEscape : List Char → List Char
  | [] => []
  | c :: t =>
      if c = '\x22' then c :: c :: csvEscape t else c :: csvEscape t

/-- A field as `csv.writer` emits it: quoted (with doubled inner quotes)
iff quoting is needed. -/
def csvField (f : String) : String :=
  if csvNeedsQuote f then "\x22" ++ String.mk (csvEscape f.data) ++ "\x22" else f

/-- One serialized RECORD row: three comma-delimited fields terminated by
the csv default `\r\n` line terminator, written literally because the
file is opened with `newline=""` (lines 123-126). -/
def csvRow (r : String × String × String) : String :=
  csvField r.1 ++ "," ++ csvField r.2.1 ++ "," ++ csvField r.2.2 ++ "\r\n"

/-- The full serialized RECORD contents: the rows written one after the
other, as the `for row in record_tuples` loop does. -/
def csvContent : List (String × String × String) → String
  | [] => ""
  | r :: rs => csvRow r ++ csvContent rs

/-- Insert into a sorted list, before the first element not
Bool-below the inserted one.  Together with `stableSort` this is the
canonical stable sort, the embedding of Python's stable `list.sort`. -/
def ordInsert {α : Type} (le : α → α → Bool) (a : α) : List α → List α
  | [] => [a]
  | b :: t => if le a b then a :: b :: t else b :: ordInsert le a t

/-- Stable sort (insertion sort), modelling Python's stable `list.sort`
with key-based comparison `le`. -/
def stableSort {α : Type} (le : α → α → Bool) : List α → List α
  | [] => []
  | a :: t => ordInsert le a (stableSort le t)

/-- Pathlib's `PurePath(p).is_relative_to(base)`: the path equals the
base or the base (with a trailing separator) is a component-wise prefix. -/
def isRelativeTo (p base : String) : Bool :=
  p == base || (base ++ "/").data.isPrefixOf p.data

/-- The priority-bucket key of the second sort pass (lines 140-147):
2 for the `.dist-info` directory, 1 for `lilypond-binaries/lib/`,
0 for everything else. -/
def prio (version : String) (m : Member) : Nat :=
  if isRelativeTo m.filename (distInfoBasename version) then 2
  else if isRelativeTo m.filename ("lilypond-binaries/lib") then 1
  else 0

/-- Lexicographic (code-point) comparison of character lists, the
semantics of Python's `str` comparison used by the first sort pass. -/
def lexLe : List Char → List Char → Bool
  | [], _ => true
  | _ :: _, [] => false
  | a :: as, b :: bs =>
      if a < b then true else if b < a then false else lexLe as bs

/-- Comparator of the first sort pass (line 134): alphabetical by
ZipInfo filename. -/
def filenameLe (a b : Member) : Bool := lexLe a.filename.data b.filename.data

/-- Comparator of the second sort pass (line 149): by priority bucket. -/
def prioLe (version : String) (a b : Member) : Bool :=
  decide (prio version a ≤ prio version b)

/-- The RECORD archive member appended after serialization (line 129). -/
def recordMember (hash : String → String) (sourceFiles : List Member)
    (version platTag description : String) (buildNumber : Nat)
    (tMeta tWheel tModule tRecord : Nat) : Member :=
  ⟨recordPath version, tRecord, defaultMode,
    csvContent (recordTuples hash
      (injectedFiles sourceFiles version platTag description buildNumber
        tMeta tWheel tModule))⟩

/-- The member sequence of the produced wheel, in the order the members
are written to the zip file (lines 105-158): walked files, then RECORD
appended, then the alphabetical pass, then the stable priority-bucket
pass. -/
def buildMembers (hash : String → String) (sourceFiles : List Member)
    (version platTag description : String) (buildNumber : Nat)
    (tMeta tWheel tModule tRecord : Nat) : List Member :=
  stableSort (prioLe version)
    (stableSort filenameLe
      (injectedFiles sourceFiles version platTag description buildNumber
          tMeta tWheel tModule ++
        [recordMember hash sourceFiles version platTag description
          buildNumber tMeta tWheel tModule tRecord]))

/-- Result of `glob("python*")` over the entries of
`lilypond-binaries/lib`: the entry names starting with `python`. -/
def pythonStar (libEntries : List String) : List String :=
  libEntries.filter (fun e => ("python").data.isPrefixOf e.data)

/-- Path of the `.keep` placeholder touched inside the otherwise-empty
`lib-dynload` directory (lines 60-61). -/
def keepPath (py : String) : String :=
  "lilypond-binaries/lib/" ++ py ++ "/lib-dynload/.keep"

/-- Name of the produced wheel file (lines 152-154). -/
def wheelFileName (version : String) (buildNumber : Nat)
    (platTag : String) : String :=
  "lilypond-" ++ version ++ "-" ++ toString buildNumber ++ "-" ++
    fullTag platTag ++ ".whl"

/-- The `build` function of the script, from the point where the source
tree is unpacked: for linux and macos, check that exactly one
`python*` entry exists under `lilypond-binaries/lib` (the `assert` at
line 59, `none` models the aborted build) and touch the zero-length
`.keep` placeholder; then assemble the members and the output name.
`libEntries` are the names of the entries of `lilypond-binaries/lib`,
`sourceFiles` the walked files of the unpacked release. -/
def build (hash : String → String) (plat platTag version description : String)
    (buildNumber : Nat) (sourceFiles : List Member) (libEntries : List String)
    (tKeep tMeta tWheel tModule tRecord : Nat) :
    Option (String × List Member) :=
  if plat == "linux" || plat == "macos" then
    match pythonStar libEntries with
    | [py] =>
        some (wheelFileName version buildNumber platTag,
          buildMembers hash
            (sourceFiles ++ [⟨keepPath py, tKeep, defaultMode, ""⟩])
            version platTag description buildNumber
            tMeta tWheel tModule tRecord)
    | _ => none
  else
    some (wheelFileName version buildNumber platTag,
      buildMembers hash sourceFiles version platTag description buildNumber
        tMeta tWheel tModule tRecord)

/-- Prepend a character to the first piece of a split. -/
def consHead (c : Char) : List (List Char) → List (List Char)
  | [] => [[c]]
  | l :: ls => (c :: l) :: ls

/-- Split a character sequence at every CRLF line terminator (the
reader-side notion of the RECORD file's lines). -/
def splitCRLF : List Char → List (List Char)
  | [] => [[]]
  | [c] => [[c]]
  | a :: b :: rest =>
      if a = '\r' ∧ b = '\n' then [] :: splitCRLF rest
      else consHead a (splitCRLF (b :: rest))

/-- Split a character sequence at every comma (the reader-side notion of
the comma-delimited fields of a RECORD row). -/
def splitComma : List Char → List (List Char)
  | [] => [[]]
  | c :: rest =>
      if c = ',' then [] :: splitComma rest else consHead c (splitComma rest)

/-- A csv field containing no delimiter, quote or line-terminator
character; csv QUOTE_MINIMAL writes such a field verbatim. -/
def cleanField (f : String) : Prop :=
  ∀ c ∈ f.data, c ≠ ',' ∧ c ≠ '\x22' ∧ c ≠ '\r' ∧ c ≠ '\n'

/-- The unquoted text of one RECORD row, without its line terminator. -/
def rowLine (r : String × String × String) : String :=
  r.1 ++ "," ++ r.2.1 ++ "," ++ r.2.2

/-- The order the two sort passes together establish: by priority
bucket, and alphabetically inside each bucket. -/
def lexR (version : String) (a b : Member) : Prop :=
  prio version a ≤ prio version b ∧
    (prio version b ≤ prio version a → a.filename ≤ b.filename)

/-- Replace a member's timestamp. -/
def setTime (t : Nat) (m : Member) : Member := { m with date_time := t }

/-- Erase the timestamp of the wrapper-module member, keeping everything
else byte-identical: two archives agree except for the wrapper module's
timestamp iff their images under this map are equal. -/
def stripModuleTime (l : List Member) : List Member :=
  l.map (fun m => if m.filename = modulePath then setTime 0 m else m)

/-- Relative paths of the four members the script synthesizes during the
build (their timestamps are the build's own write times). -/
def synthPaths (version : String) : List String :=
  [metadataPath version, wheelPath version, modulePath, recordPath version]

/-- Erase the timestamps of all four synthesized members. -/
def stripSynthTimes (version : String) (l : List Member) : List Member :=
  l.map (fun m => if m.filename ∈ synthPaths version then setTime 0 m else m)

/-- Rewrite the timestamps of the four synthesized members to the given
values; relates the members of one run to those of another run. -/
def retime (version : String) (tM tW tMod tR : Nat) (m : Member) : Member :=
  if m.filename = metadataPath version then setTime tM m
  else if m.filename = wheelPath version then setTime tW m
  else if m.filename = modulePath then setTime tMod m
  else if m.filename = recordPath version then setTime tR m
  else m

/-! String-order bridging lemmas. -/

theorem list_lex_append {s x y : List Char} :
    List.Lex (· < ·) (s ++ x) (s ++ y) ↔ List.Lex (· < ·) x y := by
  induction s with
  | nil => exact Iff.rfl
  | cons c cs ih =>
      rw [List.cons_append, List.cons_append, List.Lex.cons_iff]
      exact ih

theorem string_append_lt {s a b : String} : s ++ a < s ++ b ↔ a < b := by
  rw [String.lt_iff_toList_lt, String.lt_iff_toList_lt]
  show List.Lex (· < ·) (s ++ a).data ((s ++ b).data) ↔
    List.Lex (· < ·) a.data b.data
  rw [String.data_append, String.data_append]
  exact list_lex_append

theorem string_append_le {s a b : String} : s ++ a ≤ s ++ b ↔ a ≤ b := by
  rw [← not_lt, ← not_lt]
  exact not_congr string_append_lt

theorem string_append_inj {s a b : String} (h : s ++ a = s ++ b) : a = b := by
  have hd : (s ++ a).data = (s ++ b).data := by rw [h]
  rw [String.data_append, String.data_append] at hd
  exact String.toList_inj.mp (List.append_cancel_left hd)

theorem lexLe_iff_not_lex :
    ∀ x y : List Char, lexLe x y = true ↔ ¬ List.Lex (· < ·) y x
  | [], y => by
      constructor
      · intro _ h; exact List.Lex.not_nil_right _ _ h
      · intro _; rfl
  | a :: as, [] => by
      constructor
      · intro h; cases h
      · intro h; exact absurd List.Lex.nil h
  | a :: as, b :: bs => by
      show (if a < b then true else if b < a then false else lexLe as bs)
          = true ↔ _
      rcases lt_trichotomy a b with hab | heq | hba
      · rw [if_pos hab]
        refine iff_of_true rfl ?_
        intro h
        cases h with
        | cons h' => exact absurd hab (lt_irrefl _)
        | rel h' => exact absurd hab (lt_asymm h')
      · subst heq
        rw [if_neg (lt_irrefl a), if_neg (lt_irrefl a)]
        rw [lexLe_iff_not_lex as bs]
        exact (not_congr List.Lex.cons_iff).symm
      · rw [if_neg (lt_asymm hba), if_pos hba]
        exact iff_of_false (by simp) (fun h => h (List.Lex.rel hba))

theorem filenameLe_iff {a b : Member} :
    filenameLe a b = true ↔ a.filename ≤ b.filename := by
  rw [show filenameLe a b = lexLe a.filename.data b.filename.data from rfl]
  rw [lexLe_iff_not_lex]
  rw [← not_lt (α := String)]
  apply not_congr
  exact (@String.lt_iff_toList_lt b.filename a.filename).symm

/-! Distinctness and shape of the synthesized paths. -/

theorem length_distInfoBasename (v : String) :
    (distInfoBasename v).length = v.length + 19 := by
  show (("lilypond-" ++ v) ++ (".dist-info")).length = v.length + 19
  rw [String.length_append, String.length_append,
    show ("lilypond-" : String).length = 9 from rfl,
    show (".dist-info" : String).length = 10 from rfl]
  omega

theorem metadataPath_ne_wheelPath (v : String) :
    metadataPath v ≠ wheelPath v := by
  intro h
  have := string_append_inj h
  exact absurd this (by decide)

theorem metadataPath_ne_recordPath (v : String) :
    metadataPath v ≠ recordPath v := by
  intro h
  have := string_append_inj h
  exact absurd this (by decide)

theorem wheelPath_ne_recordPath (v : String) :
    wheelPath v ≠ recordPath v := by
  intro h
  have := string_append_inj h
  exact absurd this (by decide)

theorem length_metadataPath (v : String) :
    (metadataPath v).length = v.length + 28 := by
  show (distInfoBasename v ++ ("/METADATA")).length = v.length + 28
  rw [String.length_append, length_distInfoBasename,
    show ("/METADATA" : String).length = 9 from rfl]

theorem length_wheelPath (v : String) :
    (wheelPath v).length = v.length + 25 := by
  show (distInfoBasename v ++ ("/WHEEL")).length = v.length + 25
  rw [String.length_append, length_distInfoBasename,
    show ("/WHEEL" : String).length = 6 from rfl]

theorem length_recordPath (v : String) :
    (recordPath v).length = v.length + 26 := by
  show (distInfoBasename v ++ ("/RECORD")).length = v.length + 26
  rw [String.length_append, length_distInfoBasename,
    show ("/RECORD" : String).length = 7 from rfl]

theorem modulePath_ne_metadataPath (v : String) :
    modulePath ≠ metadataPath v := by
  intro h
  have h1 := congrArg String.length h
  rw [length_metadataPath, show modulePath.length = 11 from rfl] at h1
  omega

theorem modulePath_ne_wheelPath (v : String) :
    modulePath ≠ wheelPath v := by
  intro h
  have h1 := congrArg String.length h
  rw [length_wheelPath, show modulePath.length = 11 from rfl] at h1
  omega

theorem modulePath_ne_recordPath (v : String) :
    modulePath ≠ recordPath v := by
  intro h
  have h1 := congrArg String.length h
  rw [length_recordPath, show modulePath.length = 11 from rfl] at h1
  omega

theorem metadataPath_lt_recordPath (v : String) :
    metadataPath v < recordPath v :=
  string_append_lt.mpr (String.lt_iff_toList_lt.mpr (by decide))

theorem recordPath_lt_wheelPath (v : String) :
    recordPath v < wheelPath v :=
  string_append_lt.mpr (String.lt_iff_toList_lt.mpr (by decide))

/-! Facts about `isRelativeTo` and `prio`. -/

theorem isRelativeTo_concat (base rest : String) :
    isRelativeTo (base ++ ("/" ++ rest)) base = true := by
  unfold isRelativeTo
  rw [Bool.or_eq_true]
  right
  rw [List.isPrefixOf_iff_prefix]
  rw [String.data_append, String.data_append, String.data_append]
  exact ⟨rest.data, List.append_assoc _ _ _⟩

theorem isRelativeTo_metadataPath (v : String) :
    isRelativeTo (metadataPath v) (distInfoBasename v) = true := by
  have : metadataPath v = distInfoBasename v ++ ("/" ++ "METADATA") := by
    show distInfoBasename v ++ ("/METADATA") = _
    rw [show ("/" ++ "METADATA" : String) = "/METADATA" from rfl]
  rw [this]
  exact isRelativeTo_concat _ _

theorem isRelativeTo_wheelPath (v : String) :
    isRelativeTo (wheelPath v) (distInfoBasename v) = true := by
  have : wheelPath v = distInfoBasename v ++ ("/" ++ "WHEEL") := by
    show distInfoBasename v ++ ("/WHEEL") = _
    rw [show ("/" ++ "WHEEL" : String) = "/WHEEL" from rfl]
  rw [this]
  exact isRelativeTo_concat _ _

theorem isRelativeTo_recordPath (v : String) :
    isRelativeTo (recordPath v) (distInfoBasename v) = true := by
  have : recordPath v = distInfoBasename v ++ ("/" ++ "RECORD") := by
    show distInfoBasename v ++ ("/RECORD") = _
    rw [show ("/" ++ "RECORD" : String) = "/RECORD" from rfl]
  rw [this]
  exact isRelativeTo_concat _ _

theorem isRelativeTo_modulePath (v : String) :
    isRelativeTo modulePath (distInfoBasename v) = false := by
  unfold isRelativeTo
  apply Bool.or_eq_false_iff.mpr
  constructor
  · apply beq_eq_false_iff_ne.mpr
    intro h
    have h1 := congrArg String.length h
    rw [length_distInfoBasename, show modulePath.length = 11 from rfl] at h1
    omega
  · apply Bool.eq_false_iff.mpr
    intro h
    have hp := List.isPrefixOf_iff_prefix.mp h
    have hlen := hp.length_le
    have h20 : (distInfoBasename v ++ ("/")).data.length = v.length + 20 := by
      show (distInfoBasename v ++ ("/")).length = v.length + 20
      rw [String.length_append, length_distInfoBasename,
        show ("/" : String).length = 1 from rfl]
    have h11 : (modulePath.data).length = 11 := by decide
    rw [h20, h11] at hlen
    omega

theorem prio_le_two (v : String) (m : Member) : prio v m ≤ 2 := by
  unfold prio
  split_ifs <;> omega

theorem prio_two_isRelativeTo {v : String} {m : Member}
    (h : 2 ≤ prio v m) :
    isRelativeTo m.filename (distInfoBasename v) = true := by
  unfold prio at h
  split_ifs at h with h1 h2
  · exact h1
  · omega
  · omega

/-! Generic lemmas about the stable sort. -/

theorem mem_ordInsert {α : Type} (le : α → α → Bool) (a x : α) :
    ∀ l : List α, x ∈ ordInsert le a l ↔ x = a ∨ x ∈ l
  | [] => by simp [ordInsert]
  | b :: t => by
      show x ∈ (if le a b then a :: b :: t else b :: ordInsert le a t) ↔ _
      split
      · simp
      · rw [List.mem_cons, mem_ordInsert le a x t, List.mem_cons]
        tauto

theorem ordInsert_perm {α : Type} (le : α → α → Bool) (a : α) :
    ∀ l : List α, List.Perm (ordInsert le a l) (a :: l)
  | [] => List.Perm.refl _
  | b :: t => by
      show List.Perm (if le a b then a :: b :: t else b :: ordInsert le a t) _
      split
      · exact List.Perm.refl _
      · exact ((ordInsert_perm le a t).cons b).trans (List.Perm.swap a b t)

theorem stableSort_perm {α : Type} (le : α → α → Bool) :
    ∀ l : List α, List.Perm (stableSort le l) l
  | [] => List.Perm.refl _
  | a :: t =>
      (ordInsert_perm le a (stableSort le t)).trans
        ((stableSort_perm le t).cons a)

theorem pairwise_ordInsert {α : Type} (le : α → α → Bool) (S : α → α → Prop)
    (htot : ∀ a b, le a b = false → le b a = true)
    (htrans : ∀ a b c, le a b = true → le b c = true → le a c = true)
    (a : α) :
    ∀ u : List α,
      u.Pairwise (fun x y => le x y = true ∧ (le y x = true → S x y)) →
      (∀ x ∈ u, S a x) →
      (ordInsert le a u).Pairwise
        (fun x y => le x y = true ∧ (le y x = true → S x y))
  | [], _, _ => by simp [ordInsert]
  | b :: v, hu, ha => by
      rw [List.pairwise_cons] at hu
      show List.Pairwise _ (if le a b then a :: b :: v else b :: ordInsert le a v)
      by_cases hle : le a b = true
      · rw [if_pos hle]
        rw [List.pairwise_cons]
        refine ⟨?_, List.pairwise_cons.mpr hu⟩
        intro y hy
        rcases List.mem_cons.mp hy with rfl | hyv
        · exact ⟨hle, fun _ => ha y (List.mem_cons_self _ _)⟩
        · refine ⟨htrans a b y hle (hu.1 y hyv).1, fun _ => ha y ?_⟩
          exact List.mem_cons_of_mem _ hyv
      · have hle' : le a b = false := by
          revert hle; cases le a b <;> simp
        rw [if_neg (by simp [hle'])]
        rw [List.pairwise_cons]
        constructor
        · intro y hy
          rcases (mem_ordInsert le a y v).mp hy with rfl | hyv
          · refine ⟨htot _ _ hle', fun hab => ?_⟩
            rw [hle'] at hab
            cases hab
          · exact hu.1 y hyv
        · exact pairwise_ordInsert le S htot htrans a v hu.2
            (fun x hx => ha x (List.mem_cons_of_mem _ hx))

theorem pairwise_stableSort_lex {α : Type} (le : α → α → Bool)
    (S : α → α → Prop)
    (htot : ∀ a b, le a b = false → le b a = true)
    (htrans : ∀ a b c, le a b = true → le b c = true → le a c = true) :
    ∀ l : List α, l.Pairwise S →
      (stableSort le l).Pairwise
        (fun x y => le x y = true ∧ (le y x = true → S x y))
  | [], _ => by simp [stableSort]
  | a :: t, hl => by
      rw [List.pairwise_cons] at hl
      show List.Pairwise _ (ordInsert le a (stableSort le t))
      apply pairwise_ordInsert le S htot htrans
      · exact pairwise_stableSort_lex le S htot htrans t hl.2
      · intro x hx
        exact hl.1 x ((stableSort_perm le t).mem_iff.mp hx)

theorem pairwise_true {α : Type} :
    ∀ l : List α, l.Pairwise (fun _ _ => True)
  | [] => List.Pairwise.nil
  | _ :: t => List.Pairwise.cons (fun _ _ => trivial) (pairwise_true t)

theorem pairwise_stableSort {α : Type} (le : α → α → Bool)
    (htot : ∀ a b, le a b = false → le b a = true)
    (htrans : ∀ a b c, le a b = true → le b c = true → le a c = true)
    (l : List α) :
    (stableSort le l).Pairwise (fun x y => le x y = true) :=
  (pairwise_stableSort_lex le (fun _ _ => True) htot htrans l
    (pairwise_true l)).imp (fun h => h.1)

theorem ordInsert_map {α : Type} (le : α → α → Bool) (f : α → α)
    (hf : ∀ a b, le (f a) (f b) = le a b) (a : α) :
    ∀ l : List α, ordInsert le (f a) (l.map f) = (ordInsert le a l).map f
  | [] => rfl
  | b :: t => by
      by_cases h : le a b = true
      · simp [ordInsert, hf a b, h]
      · have h' : le a b = false := by
          revert h; cases le a b <;> simp
        simp [ordInsert, hf a b, h', ordInsert_map le f hf a t]

theorem stableSort_map {α : Type} (le : α → α → Bool) (f : α → α)
    (hf : ∀ a b, le (f a) (f b) = le a b) :
    ∀ l : List α, stableSort le (l.map f) = (stableSort le l).map f
  | [] => rfl
  | a :: t => by
      show ordInsert le (f a) ((stableSort le) (t.map f)) = _
      rw [stableSort_map le f hf t, ordInsert_map le f hf]
      rfl

/-! Comparator properties and the structure of `buildMembers`. -/

theorem filenameLe_total (a b : Member) (h : filenameLe a b = false) :
    filenameLe b a = true := by
  apply filenameLe_iff.mpr
  rcases le_total a.filename b.filename with hab | hba
  · rw [filenameLe_iff.mpr hab] at h
    cases h
  · exact hba

theorem filenameLe_trans (a b c : Member) (hab : filenameLe a b = true)
    (hbc : filenameLe b c = true) : filenameLe a c = true :=
  filenameLe_iff.mpr ((filenameLe_iff.mp hab).trans (filenameLe_iff.mp hbc))

theorem prioLe_total (v : String) (a b : Member)
    (h : prioLe v a b = false) : prioLe v b a = true :=
  decide_eq_true (le_of_not_le (of_decide_eq_false h))

theorem prioLe_trans (v : String) (a b c : Member)
    (hab : prioLe v a b = true) (hbc : prioLe v b c = true) :
    prioLe v a c = true :=
  decide_eq_true ((of_decide_eq_true hab).trans (of_decide_eq_true hbc))

theorem buildMembers_perm (hash : String → String) (sourceFiles : List Member)
    (version platTag description : String) (buildNumber : Nat)
    (tMeta tWheel tModule tRecord : Nat) :
    List.Perm
      (buildMembers hash sourceFiles version platTag description buildNumber
        tMeta tWheel tModule tRecord)
      (injectedFiles sourceFiles version platTag description buildNumber
        tMeta tWheel tModule ++
        [recordMember hash sourceFiles version platTag description buildNumber
          tMeta tWheel tModule tRecord]) :=
  (stableSort_perm _ _).trans (stableSort_perm _ _)

theorem buildMembers_mem_iff {m : Member} (hash : String → String)
    (sourceFiles : List Member)
    (version platTag description : String) (buildNumber : Nat)
    (tMeta tWheel tModule tRecord : Nat) :
    m ∈ buildMembers hash sourceFiles version platTag description buildNumber
        tMeta tWheel tModule tRecord ↔
      m ∈ injectedFiles sourceFiles version platTag description buildNumber
          tMeta tWheel tModule ++
        [recordMember hash sourceFiles version platTag description buildNumber
          tMeta tWheel tModule tRecord] :=
  (buildMembers_perm hash sourceFiles version platTag description buildNumber
    tMeta tWheel tModule tRecord).mem_iff

theorem buildMembers_pairwise (hash : String → String)
    (sourceFiles : List Member)
    (version platTag description : String) (buildNumber : Nat)
    (tMeta tWheel tModule tRecord : Nat) :
    (buildMembers hash sourceFiles version platTag description buildNumber
      tMeta tWheel tModule tRecord).Pairwise (lexR version) := by
  have h1 : (stableSort filenameLe
      (injectedFiles sourceFiles version platTag description buildNumber
        tMeta tWheel tModule ++
        [recordMember hash sourceFiles version platTag description buildNumber
          tMeta tWheel tModule tRecord])).Pairwise
      (fun a b : Member => a.filename ≤ b.filename) :=
    (pairwise_stableSort filenameLe filenameLe_total filenameLe_trans
      _).imp (fun h => filenameLe_iff.mp h)
  have h2 := pairwise_stableSort_lex (prioLe version)
    (fun a b : Member => a.filename ≤ b.filename)
    (prioLe_total version) (prioLe_trans version) _ h1
  refine h2.imp ?_
  intro a b h
  exact ⟨of_decide_eq_true h.1, fun hba => h.2 (decide_eq_true hba)⟩

theorem prio_metadataMember (version description : String) (tMeta : Nat) :
    prio version (metadataMember version description tMeta) = 2 := by
  unfold prio
  rw [show (metadataMember version description tMeta).filename
      = metadataPath version from rfl]
  rw [isRelativeTo_metadataPath]
  rfl

theorem prio_wheelMember (version platTag : String)
    (buildNumber tWheel : Nat) :
    prio version (wheelMember version platTag buildNumber tWheel) = 2 := by
  unfold prio
  rw [show (wheelMember version platTag buildNumber tWheel).filename
      = wheelPath version from rfl]
  rw [isRelativeTo_wheelPath]
  rfl

theorem prio_moduleMember (version : String) (tModule : Nat) :
    prio version (moduleMember tModule) = 0 := by
  unfold prio
  rw [show (moduleMember tModule).filename = modulePath from rfl]
  rw [isRelativeTo_modulePath]
  rw [show isRelativeTo modulePath ("lilypond-binaries/lib") = false
      from by decide]
  rfl

theorem prio_recordMember (hash : String → String) (sourceFiles : List Member)
    (version platTag description : String) (buildNumber : Nat)
    (tMeta tWheel tModule tRecord : Nat) :
    prio version (recordMember hash sourceFiles version platTag description
      buildNumber tMeta tWheel tModule tRecord) = 2 := by
  unfold prio
  rw [show (recordMember hash sourceFiles version platTag description
      buildNumber tMeta tWheel tModule tRecord).filename
      = recordPath version from rfl]
  rw [isRelativeTo_recordPath]
  rfl

/-! The csv serialization of RECORD. -/

theorem csvNeedsQuote_eq_false {f : String} (h : cleanField f) :
    csvNeedsQuote f = false := by
  unfold csvNeedsQuote
  rw [List.any_eq_false]
  intro c hc
  rcases h c hc with ⟨h1, h2, h3, h4⟩
  simp [h1, h2, h3, h4]

theorem csvField_clean {f : String} (h : cleanField f) : csvField f = f := by
  unfold csvField
  rw [csvNeedsQuote_eq_false h]
  rfl

theorem csvRow_data {r : String × String × String}
    (h1 : cleanField r.1) (h2 : cleanField r.2.1) (h3 : cleanField r.2.2) :
    (csvRow r).data = (rowLine r).data ++ ('\r' :: '\n' :: []) := by
  unfold csvRow rowLine
  rw [csvField_clean h1, csvField_clean h2, csvField_clean h3]
  simp [String.data_append, List.append_assoc]

theorem mem_rowLine_data {r : String × String × String} {c : Char}
    (hc : c ∈ (rowLine r).data) :
    c ∈ r.1.data ∨ c = ',' ∨ c ∈ r.2.1.data ∨ c ∈ r.2.2.data := by
  unfold rowLine at hc
  simp only [String.data_append, List.mem_append,
    List.mem_singleton] at hc
  tauto

theorem rowLine_no_cr {r : String × String × String}
    (h1 : cleanField r.1) (h2 : cleanField r.2.1) (h3 : cleanField r.2.2) :
    ∀ c ∈ (rowLine r).data, c ≠ '\r' := by
  intro c hc
  rcases mem_rowLine_data hc with h | h | h | h
  · exact (h1 c h).2.2.1
  · rw [h]; decide
  · exact (h2 c h).2.2.1
  · exact (h3 c h).2.2.1

theorem splitComma_no_comma :
    ∀ f : List Char, (∀ c ∈ f, c ≠ ',') → splitComma f = [f]
  | [], _ => rfl
  | c :: t, h => by
      show (if c = ',' then [] :: splitComma t
          else consHead c (splitComma t)) = _
      rw [if_neg (h c (List.mem_cons_self _ _))]
      rw [splitComma_no_comma t (fun x hx => h x (List.mem_cons_of_mem _ hx))]
      rfl

theorem splitComma_append :
    ∀ f : List Char, (∀ c ∈ f, c ≠ ',') → ∀ rest,
      splitComma (f ++ ',' :: rest) = f :: splitComma rest
  | [], _, rest => by
      show (if (',' : Char) = ',' then [] :: splitComma rest else _) = _
      rw [if_pos rfl]
  | c :: t, h, rest => by
      show (if c = ',' then _
          else consHead c (splitComma (t ++ ',' :: rest))) = _
      rw [if_neg (h c (List.mem_cons_self _ _))]
      rw [splitComma_append t (fun x hx => h x (List.mem_cons_of_mem _ hx))]
      rfl

theorem splitCRLF_no_cr :
    ∀ f : List Char, (∀ c ∈ f, c ≠ '\r') → splitCRLF f = [f]
  | [], _ => rfl
  | [_], _ => rfl
  | a :: b :: rest, h => by
      show (if a = '\r' ∧ b = '\n' then _
          else consHead a (splitCRLF (b :: rest))) = _
      rw [if_neg (fun hc => h a (List.mem_cons_self _ _) hc.1)]
      rw [splitCRLF_no_cr (b :: rest)
        (fun x hx => h x (List.mem_cons_of_mem _ hx))]
      rfl

theorem splitCRLF_append :
    ∀ f : List Char, (∀ c ∈ f, c ≠ '\r') → ∀ rest,
      splitCRLF (f ++ '\r' :: '\n' :: rest) = f :: splitCRLF rest
  | [], _, rest => by
      show (if ('\r' : Char) = '\r' ∧ ('\n' : Char) = '\n'
          then [] :: splitCRLF rest else _) = _
      rw [if_pos ⟨rfl, rfl⟩]
  | [c], h, rest => by
      show (if c = '\r' ∧ ('\r' : Char) = '\n' then _
          else consHead c (splitCRLF ('\r' :: '\n' :: rest))) = _
      rw [if_neg (fun hc => h c (List.mem_cons_self _ _) hc.1)]
      rw [show splitCRLF ('\r' :: '\n' :: rest) = [] :: splitCRLF rest from by
        show (if ('\r' : Char) = '\r' ∧ ('\n' : Char) = '\n'
            then [] :: splitCRLF rest else _) = _
        rw [if_pos ⟨rfl, rfl⟩]]
      rfl
  | a :: b :: t, h, rest => by
      show (if a = '\r' ∧ b = '\n' then _
          else consHead a (splitCRLF (b :: (t ++ '\r' :: '\n' :: rest)))) = _
      rw [if_neg (fun hc => h a (List.mem_cons_self _ _) hc.1)]
      rw [show b :: (t ++ '\r' :: '\n' :: rest)
          = (b :: t) ++ '\r' :: '\n' :: rest from rfl]
      rw [splitCRLF_append (b :: t)
        (fun x hx => h x (List.mem_cons_of_mem _ hx)) rest]
      rfl

/-! The decimal size field of a RECORD row contains only digit
characters, hence never needs quoting. -/

theorem digitChar_eq_star {n : Nat} (h : 16 ≤ n) :
    Nat.digitChar n = '*' := by
  unfold Nat.digitChar
  repeat rw [if_neg (by omega)]

theorem digitChar_clean (n : Nat) :
    Nat.digitChar n ≠ ',' ∧ Nat.digitChar n ≠ '\x22' ∧
      Nat.digitChar n ≠ '\r' ∧ Nat.digitChar n ≠ '\n' := by
  by_cases h : n < 16
  · exact (by decide : ∀ m, m < 16 → (Nat.digitChar m ≠ ',' ∧
      Nat.digitChar m ≠ '\x22' ∧ Nat.digitChar m ≠ '\r' ∧
      Nat.digitChar m ≠ '\n')) n h
  · rw [digitChar_eq_star (by omega)]
    decide

theorem toDigitsCore_mem (b : Nat) :
    ∀ (fuel n : Nat) (ds : List Char),
      ∀ c ∈ Nat.toDigitsCore b fuel n ds,
        c ∈ ds ∨ ∃ m, c = Nat.digitChar m
  | 0, _, _, _, hc => Or.inl hc
  | fuel + 1, n, ds, c, hc => by
      rw [show Nat.toDigitsCore b (fuel + 1) n ds
          = if n / b = 0 then Nat.digitChar (n % b) :: ds
            else Nat.toDigitsCore b fuel (n / b)
              (Nat.digitChar (n % b) :: ds) from rfl] at hc
      by_cases h0 : n / b = 0
      · rw [if_pos h0] at hc
        rcases List.mem_cons.mp hc with rfl | hm
        · exact Or.inr ⟨n % b, rfl⟩
        · exact Or.inl hm
      · rw [if_neg h0] at hc
        rcases toDigitsCore_mem b fuel (n / b) _ c hc with hm | hm
        · rcases List.mem_cons.mp hm with rfl | hm'
          · exact Or.inr ⟨n % b, rfl⟩
          · exact Or.inl hm'
        · exact Or.inr hm

theorem cleanField_toString_nat (n : Nat) : cleanField (toString n) := by
  intro c hc
  have h : c ∈ Nat.toDigits 10 n := hc
  rcases toDigitsCore_mem 10 (n + 1) n [] c h with h' | ⟨m, rfl⟩
  · cases h'
  · exact digitChar_clean m

theorem cleanField_digest {h : String} (hh : cleanField h) :
    cleanField ("sha256=" ++ h) := by
  intro c hc
  rw [String.data_append] at hc
  rcases List.mem_append.mp hc with hm | hm
  · have : cleanField ("sha256=") := by unfold cleanField; decide
    exact this c hm
  · exact hh c hm

/-! RECORD row bookkeeping. -/

theorem recordTuples_fst (hash : String → String) (l : List Member) :
    (recordTuples hash l).map (fun r => r.1) = l.map Member.filename := by
  unfold recordTuples
  rw [List.map_map]
  rfl

theorem injectedFiles_filenames (sourceFiles : List Member)
    (version platTag description : String) (buildNumber : Nat)
    (tMeta tWheel tModule : Nat) :
    (injectedFiles sourceFiles version platTag description buildNumber
        tMeta tWheel tModule).map Member.filename
      = sourceFiles.map Member.filename ++
        [metadataPath version, wheelPath version, modulePath] := by
  unfold injectedFiles
  rw [List.map_append]
  rfl

/-- Claim C9: for every build that produces an archive, the produced
file is named `lilypond-<version>-<buildNumber>-py3-none-<platTag>.whl`
with the caller-supplied version, build number and platform tag. -/
theorem claim9_theorem (hash : String → String)
    (plat platTag version description : String) (buildNumber : Nat)
    (sourceFiles : List Member) (libEntries : List String)
    (tKeep tMeta tWheel tModule tRecord : Nat)
    (name : String) (members : List Member)
    (h : build hash plat platTag version description buildNumber sourceFiles
      libEntries tKeep tMeta tWheel tModule tRecord = some (name, members)) :
    name = "lilypond-" ++ version ++ "-" ++ toString buildNumber ++
      "-py3-none-" ++ platTag ++ ".whl" := by
  have hdata : (wheelFileName version buildNumber platTag).data
      = ("lilypond-" ++ version ++ "-" ++ toString buildNumber ++
        "-py3-none-" ++ platTag ++ ".whl").data := by
    unfold wheelFileName fullTag
    simp only [String.data_append, List.append_assoc, List.cons_append,
      List.nil_append]
  have hname : wheelFileName version buildNumber platTag
      = "lilypond-" ++ version ++ "-" ++ toString buildNumber ++
        "-py3-none-" ++ platTag ++ ".whl" := String.toList_inj.mp hdata
  unfold build at h
  by_cases hp : (plat == "linux" || plat == "macos") = true
  · rw [if_pos hp] at h
    rcases hmatch : pythonStar libEntries with _ | ⟨py, rest⟩
    · rw [hmatch] at h; cases h
    · rcases rest with _ | ⟨q, rest2⟩
      · rw [hmatch] at h
        rw [Option.some.injEq] at h
        rw [← (Prod.mk.injEq _ _ _ _).mp h |>.1]
        exact hname
      · rw [hmatch] at h; cases h
  · rw [if_neg hp] at h
    rw [Option.some.injEq] at h
    rw [← (Prod.mk.injEq _ _ _ _).mp h |>.1]
    exact hname

set_option maxRecDepth 8192 in
/-- Witness for claim C9 at a concrete windows build. -/
theorem claim9_witness :
    build (fun _ => "h") "windows" "win_amd64" "2.24.1" "d" 2 [] [] 1 2 3 4 5
        = some ("lilypond-2.24.1-2-py3-none-win_amd64.whl",
          buildMembers (fun _ => "h") [] "2.24.1" "win_amd64" "d" 2 2 3 4 5) ∧
      ("lilypond-2.24.1-2-py3-none-win_amd64.whl" : String)
        = "lilypond-" ++ "2.24.1" ++ "-" ++ toString 2 ++
          "-py3-none-" ++ "win_amd64" ++ ".whl" := by
  have h : build (fun _ => "h") "windows" "win_amd64" "2.24.1" "d" 2 [] []
      1 2 3 4 5
      = some ("lilypond-2.24.1-2-py3-none-win_amd64.whl",
        buildMembers (fun _ => "h") [] "2.24.1" "win_amd64" "d" 2 2 3 4 5) := by
    decide
  exact ⟨h, claim9_theorem (fun _ => "h") "windows" "win_amd64" "2.24.1"
    "d" 2 [] [] 1 2 3 4 5 _ _ h⟩

/-- Claim C8: for linux and macos builds, if the number of `python*`
entries under `lilypond-binaries/lib` is not exactly one, the build
aborts with no member list and no output (modelled by `none`); when
exactly one such entry exists, the assertion passes and a zero-length
`.keep` placeholder inside its `lib-dynload` directory is an archive
member. -/
theorem claim8_theorem (hash : String → String)
    (plat platTag version description : String) (buildNumber : Nat)
    (sourceFiles : List Member) (libEntries : List String)
    (tKeep tMeta tWheel tModule tRecord : Nat)
    (hplat : plat = "linux" ∨ plat = "macos") :
    ((pythonStar libEntries).length ≠ 1 →
      build hash plat platTag version description buildNumber sourceFiles
        libEntries tKeep tMeta tWheel tModule tRecord = none) ∧
    (∀ py, pythonStar libEntries = [py] →
      ∃ members,
        build hash plat platTag version description buildNumber sourceFiles
            libEntries tKeep tMeta tWheel tModule tRecord
          = some (wheelFileName version buildNumber platTag, members) ∧
        (⟨keepPath py, tKeep, defaultMode, ""⟩ : Member) ∈ members ∧
        ("" : String).length = 0) := by
  have hp : (plat == "linux" || plat == "macos") = true := by
    rcases hplat with rfl | rfl <;> rfl
  constructor
  · intro hne
    unfold build
    rw [if_pos hp]
    rcases hmatch : pythonStar libEntries with _ | ⟨py, rest⟩
    · rfl
    · rcases rest with _ | ⟨q, rest2⟩
      · rw [hmatch] at hne
        exact absurd rfl hne
      · rfl
  · intro py hpy
    have hb : build hash plat platTag version description buildNumber
        sourceFiles libEntries tKeep tMeta tWheel tModule tRecord
        = some (wheelFileName version buildNumber platTag,
          buildMembers hash
            (sourceFiles ++ [⟨keepPath py, tKeep, defaultMode, ""⟩])
            version platTag description buildNumber
            tMeta tWheel tModule tRecord) := by
      unfold build
      rw [if_pos hp, hpy]
    refine ⟨_, hb, ?_, rfl⟩
    apply (buildMembers_mem_iff _ _ _ _ _ _ _ _ _ _).mpr
    apply List.mem_append_left
    unfold injectedFiles
    apply List.mem_append_left
    exact List.mem_append_right _ (List.mem_singleton.mpr rfl)

/-- Witness for claim C8: a linux build with exactly one `python*`
entry succeeds and contains the placeholder; with two entries it
aborts. -/
theorem claim8_witness :
    (∃ members,
      build (fun _ => "h") "linux" "manylinux2014_x86_64" "2.24.1" "d" 1 []
          ["python3.10"] 1 2 3 4 5
        = some (wheelFileName "2.24.1" 1 "manylinux2014_x86_64", members) ∧
      (⟨keepPath "python3.10", 1, defaultMode, ""⟩ : Member) ∈ members ∧
      ("" : String).length = 0) ∧
    build (fun _ => "h") "linux" "manylinux2014_x86_64" "2.24.1" "d" 1 []
        ["python3.10", "python2.7"] 1 2 3 4 5 = none :=
  ⟨(claim8_theorem (fun _ => "h") "linux" "manylinux2014_x86_64" "2.24.1"
      "d" 1 [] ["python3.10"] 1 2 3 4 5 (Or.inl rfl)).2
      "python3.10" (by decide),
    (claim8_theorem (fun _ => "h") "linux" "manylinux2014_x86_64" "2.24.1"
      "d" 1 [] ["python3.10", "python2.7"] 1 2 3 4 5 (Or.inl rfl)).1
      (by decide)⟩

theorem recordPath_not_mem_filenames (sourceFiles : List Member)
    (version platTag description : String) (buildNumber : Nat)
    (tMeta tWheel tModule : Nat)
    (hsrc : ∀ f ∈ sourceFiles,
      isRelativeTo f.filename (distInfoBasename version) = false) :
    recordPath version ∉ (injectedFiles sourceFiles version platTag
        description buildNumber tMeta tWheel tModule).map Member.filename := by
  rw [injectedFiles_filenames]
  intro hmem
  rcases List.mem_append.mp hmem with hmem | hmem
  · rcases List.mem_map.mp hmem with ⟨f, hf, hfn⟩
    have := hsrc f hf
    rw [hfn, isRelativeTo_recordPath] at this
    cases this
  · rcases List.mem_cons.mp hmem with h | h
    · exact metadataPath_ne_recordPath version h.symm
    · rcases List.mem_cons.mp h with h | h
      · exact wheelPath_ne_recordPath version h.symm
      · rw [List.mem_singleton] at h
        exact modulePath_ne_recordPath version h.symm

/-- Claim C1 is false on the code: the wrapper module `lilypond.py` is
written to the tree at line 103, before the walk at line 109 records
hashes, so RECORD does contain a row whose path is the wrapper
module's path.  Concrete counterexample. -/
theorem claim1_counterexample :
    ¬ (∀ r ∈ recordTuples (fun _ => "h")
        (injectedFiles [] "2.24.1" "manylinux2014_x86_64" "d" 1 6 7 8),
        r.1 ≠ modulePath) := by
  decide

/-- Claim C1 (amended): the wrapper module IS covered by the
manifest/hash step: RECORD's rows are exactly the walked members —
wrapper module included — and there is no row for RECORD itself. -/
theorem claim1_theorem (hash : String → String) (sourceFiles : List Member)
    (version platTag description : String) (buildNumber : Nat)
    (tMeta tWheel tModule : Nat)
    (hsrc : ∀ f ∈ sourceFiles,
      isRelativeTo f.filename (distInfoBasename version) = false) :
    (recordTuples hash (injectedFiles sourceFiles version platTag description
        buildNumber tMeta tWheel tModule)).map (fun r => r.1)
      = (injectedFiles sourceFiles version platTag description buildNumber
          tMeta tWheel tModule).map Member.filename ∧
    modulePath ∈ (recordTuples hash (injectedFiles sourceFiles version
        platTag description buildNumber tMeta tWheel tModule)).map
        (fun r => r.1) ∧
    recordPath version ∉ (recordTuples hash (injectedFiles sourceFiles
        version platTag description buildNumber tMeta tWheel tModule)).map
        (fun r => r.1) := by
  refine ⟨recordTuples_fst _ _, ?_, ?_⟩
  · rw [recordTuples_fst, injectedFiles_filenames]
    apply List.mem_append_right
    simp
  · rw [recordTuples_fst]
    exact recordPath_not_mem_filenames sourceFiles version platTag
      description buildNumber tMeta tWheel tModule hsrc

/-- Witness for amended claim C1 at a concrete build with one source
file. -/
theorem claim1_witness :
    modulePath ∈ (recordTuples (fun _ => "h")
      (injectedFiles [⟨"lilypond-binaries/bin/lilypond", 0, 493, "B"⟩]
        "2.24.1" "manylinux2014_x86_64" "d" 1 6 7 8)).map (fun r => r.1) :=
  (claim1_theorem (fun _ => "h")
    [⟨"lilypond-binaries/bin/lilypond", 0, 493, "B"⟩]
    "2.24.1" "manylinux2014_x86_64" "d" 1 6 7 8 (by decide)).2.1

/-- Claim C4: bucket ordering invariant — in the final member sequence,
a member of a strictly lower priority bucket appears strictly before a
member of a higher bucket: every general (bucket 0) member precedes
every `lilypond-binaries/lib/` (bucket 1) member, which precedes every
dist-info (bucket 2) member. -/
theorem claim4_theorem (hash : String → String) (sourceFiles : List Member)
    (version platTag description : String) (buildNumber : Nat)
    (tMeta tWheel tModule tRecord : Nat) :
    ∀ (i j : Nat) (a b : Member),
      (buildMembers hash sourceFiles version platTag description buildNumber
        tMeta tWheel tModule tRecord)[i]? = some a →
      (buildMembers hash sourceFiles version platTag description buildNumber
        tMeta tWheel tModule tRecord)[j]? = some b →
      prio version a < prio version b → i < j := by
  intro i j a b ha hb hab
  obtain ⟨hi, hia⟩ := List.getElem?_eq_some.mp ha
  obtain ⟨hj, hjb⟩ := List.getElem?_eq_some.mp hb
  by_contra hij
  have hpw := buildMembers_pairwise hash sourceFiles version platTag
    description buildNumber tMeta tWheel tModule tRecord
  rcases Nat.lt_or_eq_of_le (Nat.le_of_not_lt hij) with hji | hji
  · have hR := List.pairwise_iff_getElem.mp hpw j i hj hi hji
    rw [hjb, hia] at hR
    exact absurd hR.1 (not_le.mpr hab)
  · have hba : b = a := by
      rw [← hjb, ← hia]
      subst hji
      rfl
    subst hba
    exact lt_irrefl _ hab

set_option maxRecDepth 8192 in
/-- Witness for claim C4 at a concrete build: the wrapper module
(bucket 0, position 0) precedes METADATA (bucket 2, position 1). -/
theorem claim4_witness :
    (buildMembers (fun _ => "h") [] "1" "p" "d" 0 5 6 7 8)[0]?
        = some (moduleMember 7) ∧
      (buildMembers (fun _ => "h") [] "1" "p" "d" 0 5 6 7 8)[1]?
        = some (metadataMember "1" "d" 5) ∧
      prio "1" (moduleMember 7) < prio "1" (metadataMember "1" "d" 5) ∧
      (0 : Nat) < 1 := by
  have h0 : (buildMembers (fun _ => "h") [] "1" "p" "d" 0 5 6 7 8)[0]?
      = some (moduleMember 7) := by decide
  have h1 : (buildMembers (fun _ => "h") [] "1" "p" "d" 0 5 6 7 8)[1]?
      = some (metadataMember "1" "d" 5) := by decide
  exact ⟨h0, h1, by decide,
    claim4_theorem (fun _ => "h") [] "1" "p" "d" 0 5 6 7 8 0 1 _ _ h0 h1
      (by decide)⟩

/-- Claim C5: within-bucket stability — the priority pass is stable
with respect to the alphabetical pass, so two members of the same
bucket appear in the final sequence in lexicographic order of their
relative paths. -/
theorem claim5_theorem (hash : String → String) (sourceFiles : List Member)
    (version platTag description : String) (buildNumber : Nat)
    (tMeta tWheel tModule tRecord : Nat) :
    ∀ (i j : Nat) (a b : Member),
      (buildMembers hash sourceFiles version platTag description buildNumber
        tMeta tWheel tModule tRecord)[i]? = some a →
      (buildMembers hash sourceFiles version platTag description buildNumber
        tMeta tWheel tModule tRecord)[j]? = some b →
      i < j → prio version a = prio version b →
      a.filename ≤ b.filename := by
  intro i j a b ha hb hij hpr
  obtain ⟨hi, hia⟩ := List.getElem?_eq_some.mp ha
  obtain ⟨hj, hjb⟩ := List.getElem?_eq_some.mp hb
  have hR := List.pairwise_iff_getElem.mp
    (buildMembers_pairwise hash sourceFiles version platTag description
      buildNumber tMeta tWheel tModule tRecord) i j hi hj hij
  rw [hia, hjb] at hR
  exact hR.2 (le_of_eq hpr.symm)

set_option maxRecDepth 8192 in
/-- Witness for claim C5 at a concrete build: METADATA and RECORD are
both in the dist-info bucket and appear in path order. -/
theorem claim5_witness :
    (buildMembers (fun _ => "h") [] "1" "p" "d" 0 5 6 7 8)[1]?
        = some (metadataMember "1" "d" 5) ∧
      (buildMembers (fun _ => "h") [] "1" "p" "d" 0 5 6 7 8)[2]?
        = some (recordMember (fun _ => "h") [] "1" "p" "d" 0 5 6 7 8) ∧
      (metadataMember "1" "d" 5).filename
        ≤ (recordMember (fun _ => "h") [] "1" "p" "d" 0 5 6 7 8).filename := by
  have h1 : (buildMembers (fun _ => "h") [] "1" "p" "d" 0 5 6 7 8)[1]?
      = some (metadataMember "1" "d" 5) := by decide
  have h2 : (buildMembers (fun _ => "h") [] "1" "p" "d" 0 5 6 7 8)[2]?
      = some (recordMember (fun _ => "h") [] "1" "p" "d" 0 5 6 7 8) := by
    decide
  exact ⟨h1, h2,
    claim5_theorem (fun _ => "h") [] "1" "p" "d" 0 5 6 7 8 1 2 _ _ h1 h2
      (by decide) (by decide)⟩

/-- Claim C6: self-omission of the manifest — RECORD is serialized from
the walked members only, so none of its rows is a row for RECORD
itself; the RECORD member is appended only afterwards, and it is then
subject to both sort passes like any other member: it occurs in the
final sequence, which is ordered by the combined two-pass
(bucket, path) order. -/
theorem claim6_theorem (hash : String → String) (sourceFiles : List Member)
    (version platTag description : String) (buildNumber : Nat)
    (tMeta tWheel tModule tRecord : Nat)
    (hsrc : ∀ f ∈ sourceFiles,
      isRelativeTo f.filename (distInfoBasename version) = false) :
    (∀ r ∈ recordTuples hash (injectedFiles sourceFiles version platTag
        description buildNumber tMeta tWheel tModule),
      r.1 ≠ recordPath version) ∧
    recordMember hash sourceFiles version platTag description buildNumber
        tMeta tWheel tModule tRecord ∈
      buildMembers hash sourceFiles version platTag description buildNumber
        tMeta tWheel tModule tRecord ∧
    (buildMembers hash sourceFiles version platTag description buildNumber
        tMeta tWheel tModule tRecord).Pairwise (lexR version) := by
  refine ⟨?_, ?_, buildMembers_pairwise hash sourceFiles version platTag
    description buildNumber tMeta tWheel tModule tRecord⟩
  · intro r hr hEq
    apply recordPath_not_mem_filenames sourceFiles version platTag
      description buildNumber tMeta tWheel tModule hsrc
    rw [← recordTuples_fst hash]
    rw [← hEq]
    exact List.mem_map_of_mem _ hr
  · apply (buildMembers_mem_iff hash sourceFiles version platTag description
      buildNumber tMeta tWheel tModule tRecord).mpr
    exact List.mem_append_right _ (List.mem_singleton.mpr rfl)

/-- Witness for claim C6 at a concrete build. -/
theorem claim6_witness :
    (∀ r ∈ recordTuples (fun _ => "h")
        (injectedFiles [] "1" "p" "d" 0 5 6 7),
      r.1 ≠ recordPath "1") ∧
    recordMember (fun _ => "h") [] "1" "p" "d" 0 5 6 7 8 ∈
      buildMembers (fun _ => "h") [] "1" "p" "d" 0 5 6 7 8 ∧
    (buildMembers (fun _ => "h") [] "1" "p" "d" 0 5 6 7 8).Pairwise
      (lexR "1") :=
  claim6_theorem (fun _ => "h") [] "1" "p" "d" 0 5 6 7 8 (by decide)

/-! Claim C3: manifest completeness. -/

theorem filter_recordTuples_eq_nil {hash : String → String} {l : List Member}
    {p : String} (hp : p ∉ l.map Member.filename) :
    (recordTuples hash l).filter (fun r => r.1 == p) = [] := by
  rw [List.filter_eq_nil_iff]
  intro r hr
  rcases List.mem_map.mp hr with ⟨x, hx, rfl⟩
  intro hbeq
  have hxp : x.filename = p := eq_of_beq hbeq
  exact hp (hxp ▸ List.mem_map_of_mem Member.filename hx)

theorem filter_recordTuples {hash : String → String} {m : Member} :
    ∀ {l : List Member}, (l.map Member.filename).Nodup → m ∈ l →
      (recordTuples hash l).filter (fun r => r.1 == m.filename)
        = [recordRow hash m] := by
  intro l
  induction l with
  | nil => intro _ hm; cases hm
  | cons a t ih =>
      intro hnodup hm
      rw [List.map_cons, List.nodup_cons] at hnodup
      show (recordRow hash a :: recordTuples hash t).filter
        (fun r => r.1 == m.filename) = _
      rcases List.mem_cons.mp hm with heq | hmt
      · subst heq
        rw [List.filter_cons_of_pos (by simp [recordRow])]
        rw [filter_recordTuples_eq_nil hnodup.1]
      · rw [List.filter_cons_of_neg ?_, ih hnodup.2 hmt]
        intro hbeq
        have : a.filename = m.filename := eq_of_beq hbeq
        exact hnodup.1 (this ▸ List.mem_map_of_mem Member.filename hmt)

/-- Claim C3: manifest completeness — for every member of the final
archive other than RECORD itself, RECORD holds exactly one row for that
member's path, and that row's digest is `sha256=` plus the hash of the
member's stored contents and its size is the contents' byte length.
(The walked tree has pairwise-distinct paths, whence the `Nodup`
hypothesis.) -/
theorem claim3_theorem (hash : String → String) (sourceFiles : List Member)
    (version platTag description : String) (buildNumber : Nat)
    (tMeta tWheel tModule tRecord : Nat)
    (hnodup : ((injectedFiles sourceFiles version platTag description
      buildNumber tMeta tWheel tModule).map Member.filename).Nodup) :
    ∀ m ∈ buildMembers hash sourceFiles version platTag description
        buildNumber tMeta tWheel tModule tRecord,
      m.filename ≠ recordPath version →
      (recordTuples hash (injectedFiles sourceFiles version platTag
          description buildNumber tMeta tWheel tModule)).filter
          (fun r => r.1 == m.filename)
        = [(m.filename, "sha256=" ++ hash m.contents,
            toString m.contents.length)] := by
  intro m hm hne
  have hmem := (buildMembers_mem_iff hash sourceFiles version platTag
    description buildNumber tMeta tWheel tModule tRecord).mp hm
  rcases List.mem_append.mp hmem with hmem | hmem
  · exact filter_recordTuples hnodup hmem
  · rw [List.mem_singleton] at hmem
    exact absurd (by rw [hmem]; rfl) hne

set_option maxRecDepth 8192 in
/-- Witness for claim C3 at a concrete build: the wrapper module's
RECORD row. -/
theorem claim3_witness :
    (recordTuples (fun _ => "h")
        (injectedFiles [] "1" "p" "d" 0 5 6 7)).filter
        (fun r => r.1 == (moduleMember 7).filename)
      = [((moduleMember 7).filename,
          "sha256=" ++ "h", toString (moduleMember 7).contents.length)] :=
  claim3_theorem (fun _ => "h") [] "1" "p" "d" 0 5 6 7 8 (by decide)
    (moduleMember 7) (by decide) (by decide)

/-! Claim C7: RECORD row format. -/

instance cleanFieldDecidable (f : String) : Decidable (cleanField f) :=
  inferInstanceAs
    (Decidable (∀ c ∈ f.data, c ≠ ',' ∧ c ≠ '\x22' ∧ c ≠ '\r' ∧ c ≠ '\n'))

theorem rowLine_ne_nil (r : String × String × String) :
    (rowLine r).data ≠ [] := by
  intro h
  have hlen := congrArg List.length h
  unfold rowLine at hlen
  simp [String.data_append, List.length_append] at hlen

theorem splitComma_rowLine {r : String × String × String}
    (h1 : cleanField r.1) (h2 : cleanField r.2.1) (h3 : cleanField r.2.2) :
    splitComma (rowLine r).data = [r.1.data, r.2.1.data, r.2.2.data] := by
  unfold rowLine
  simp only [String.data_append, List.append_assoc, List.cons_append,
    List.nil_append]
  rw [splitComma_append _ (fun c hc => (h1 c hc).1)]
  rw [splitComma_append _ (fun c hc => (h2 c hc).1)]
  rw [splitComma_no_comma _ (fun c hc => (h3 c hc).1)]

theorem splitCRLF_csvContent :
    ∀ rows : List (String × String × String),
      (∀ r ∈ rows, cleanField r.1 ∧ cleanField r.2.1 ∧ cleanField r.2.2) →
      splitCRLF (csvContent rows).data
        = rows.map (fun r => (rowLine r).data) ++ [[]]
  | [], _ => rfl
  | r :: rs, hc => by
      show splitCRLF ((csvRow r ++ csvContent rs)).data = _
      rw [String.data_append]
      rcases hc r (List.mem_cons_self _ _) with ⟨h1, h2, h3⟩
      rw [csvRow_data h1 h2 h3, List.append_assoc]
      rw [show ('\r' :: '\n' :: [] : List Char) ++ (csvContent rs).data
        = '\r' :: '\n' :: (csvContent rs).data from rfl]
      rw [splitCRLF_append _ (rowLine_no_cr h1 h2 h3) _]
      rw [splitCRLF_csvContent rs
        (fun x hx => hc x (List.mem_cons_of_mem _ hx))]
      rfl

theorem recordTuples_clean {hash : String → String} {files : List Member}
    (hpath : ∀ f ∈ files, cleanField f.filename)
    (hhash : ∀ f ∈ files, cleanField (hash f.contents)) :
    ∀ r ∈ recordTuples hash files,
      cleanField r.1 ∧ cleanField r.2.1 ∧ cleanField r.2.2 := by
  intro r hr
  rcases List.mem_map.mp hr with ⟨x, hx, rfl⟩
  exact ⟨hpath x hx, cleanField_digest (hhash x hx),
    cleanField_toString_nat _⟩

/-- Claim C7: every RECORD row consists of exactly three comma-delimited
fields — path, digest, size — and the line-ending convention
(csv CRLF written literally through `newline=""`) produces no spurious
blank line: splitting the serialized RECORD at CRLF gives exactly the
(nonempty) row lines followed by the final terminator. -/
theorem claim7_theorem (hash : String → String) (files : List Member)
    (hpath : ∀ f ∈ files, cleanField f.filename)
    (hhash : ∀ f ∈ files, cleanField (hash f.contents)) :
    splitCRLF (csvContent (recordTuples hash files)).data
      = (recordTuples hash files).map (fun r => (rowLine r).data) ++ [[]] ∧
    (∀ r ∈ recordTuples hash files,
      splitComma (rowLine r).data = [r.1.data, r.2.1.data, r.2.2.data]) ∧
    (∀ line ∈
        (splitCRLF (csvContent (recordTuples hash files)).data).dropLast,
      line ≠ []) := by
  have hclean := recordTuples_clean hpath hhash
  have hsplit := splitCRLF_csvContent (recordTuples hash files) hclean
  refine ⟨hsplit, ?_, ?_⟩
  · intro r hr
    rcases hclean r hr with ⟨h1, h2, h3⟩
    exact splitComma_rowLine h1 h2 h3
  · intro line hline
    rw [hsplit, List.dropLast_concat] at hline
    rcases List.mem_map.mp hline with ⟨r, _, rfl⟩
    exact rowLine_ne_nil r

/-- Witness for claim C7 at a concrete one-file walk. -/
theorem claim7_witness :
    splitCRLF (csvContent (recordTuples (fun _ => "h")
        [⟨"bin/app", 0, 493, "B"⟩])).data
      = (recordTuples (fun _ => "h") [⟨"bin/app", 0, 493, "B"⟩]).map
          (fun r => (rowLine r).data) ++ [[]] ∧
    (∀ r ∈ recordTuples (fun _ => "h") [⟨"bin/app", 0, 493, "B"⟩],
      splitComma (rowLine r).data = [r.1.data, r.2.1.data, r.2.2.data]) ∧
    (∀ line ∈ (splitCRLF (csvContent (recordTuples (fun _ => "h")
        [⟨"bin/app", 0, 493, "B"⟩])).data).dropLast,
      line ≠ []) :=
  claim7_theorem (fun _ => "h") [⟨"bin/app", 0, 493, "B"⟩]
    (by decide) (by decide)

/-! Claim C2: determinism across two runs. -/

theorem retime_filename (version : String) (tM tW tMod tR : Nat)
    (m : Member) :
    (retime version tM tW tMod tR m).filename = m.filename := by
  unfold retime
  split_ifs <;> rfl

theorem retime_contents (version : String) (tM tW tMod tR : Nat)
    (m : Member) :
    (retime version tM tW tMod tR m).contents = m.contents := by
  unfold retime
  split_ifs <;> rfl

theorem setTime_retime (version : String) (tM tW tMod tR t : Nat)
    (m : Member) :
    setTime t (retime version tM tW tMod tR m) = setTime t m := by
  unfold retime
  split_ifs <;> rfl

theorem retime_eq_self {version : String} {tM tW tMod tR : Nat} {m : Member}
    (h : m.filename ∉ synthPaths version) :
    retime version tM tW tMod tR m = m := by
  unfold synthPaths at h
  simp only [List.mem_cons, List.not_mem_nil, or_false, not_or] at h
  unfold retime
  rw [if_neg h.1, if_neg h.2.1, if_neg h.2.2.1, if_neg h.2.2.2]

theorem filenameLe_retime (version : String) (tM tW tMod tR : Nat) :
    ∀ a b : Member,
      filenameLe (retime version tM tW tMod tR a)
        (retime version tM tW tMod tR b) = filenameLe a b := by
  intro a b
  unfold filenameLe
  rw [retime_filename, retime_filename]

theorem prio_retime (version : String) (tM tW tMod tR : Nat) (m : Member) :
    prio version (retime version tM tW tMod tR m) = prio version m := by
  unfold prio
  rw [retime_filename]

theorem prioLe_retime (version : String) (tM tW tMod tR : Nat) :
    ∀ a b : Member,
      prioLe version (retime version tM tW tMod tR a)
        (retime version tM tW tMod tR b) = prioLe version a b := by
  intro a b
  unfold prioLe
  rw [prio_retime, prio_retime]

theorem retime_metadataMember (version description : String)
    (tMeta tM tW tMod tR : Nat) :
    retime version tM tW tMod tR (metadataMember version description tMeta)
      = metadataMember version description tM := by
  unfold retime
  split_ifs with h1 <;> first | rfl | exact absurd rfl h1

theorem retime_wheelMember (version platTag : String)
    (buildNumber tWheel tM tW tMod tR : Nat) :
    retime version tM tW tMod tR
        (wheelMember version platTag buildNumber tWheel)
      = wheelMember version platTag buildNumber tW := by
  unfold retime
  split_ifs with h1 h2 <;>
    first
      | rfl
      | exact absurd h1.symm (metadataPath_ne_wheelPath version)
      | exact absurd rfl h2

theorem retime_moduleMember (version : String) (tModule tM tW tMod tR : Nat) :
    retime version tM tW tMod tR (moduleMember tModule)
      = moduleMember tMod := by
  unfold retime
  split_ifs with h1 h2 h3 <;>
    first
      | rfl
      | exact absurd h1 (modulePath_ne_metadataPath version)
      | exact absurd h2 (modulePath_ne_wheelPath version)
      | exact absurd rfl h3

theorem retime_recordPathMember (version : String) (tM tW tMod tR t mo : Nat)
    (c : String) :
    retime version tM tW tMod tR ⟨recordPath version, t, mo, c⟩
      = ⟨recordPath version, tR, mo, c⟩ := by
  unfold retime
  split_ifs with h1 h2 h3 h4
  · exact absurd h1.symm (metadataPath_ne_recordPath version)
  · exact absurd h2.symm (wheelPath_ne_recordPath version)
  · exact absurd h3.symm (modulePath_ne_recordPath version)
  · rfl
  · exact absurd rfl h4

theorem injectedFiles_retime (sourceFiles : List Member)
    (version platTag description : String) (buildNumber : Nat)
    (tMeta tWheel tModule tM tW tMod tR : Nat)
    (hsrc : ∀ f ∈ sourceFiles, f.filename ∉ synthPaths version) :
    injectedFiles sourceFiles version platTag description buildNumber
        tM tW tMod
      = (injectedFiles sourceFiles version platTag description buildNumber
          tMeta tWheel tModule).map (retime version tM tW tMod tR) := by
  unfold injectedFiles
  rw [List.map_append]
  congr 1
  · have h : sourceFiles.map (retime version tM tW tMod tR)
        = sourceFiles.map id :=
      List.map_congr_left (fun f hf => retime_eq_self (hsrc f hf))
    rw [h, List.map_id]
  · simp only [List.map_cons, List.map_nil]
    rw [retime_metadataMember, retime_wheelMember, retime_moduleMember]

theorem recordTuples_map_retime (hash : String → String) (version : String)
    (tM tW tMod tR : Nat) (l : List Member) :
    recordTuples hash (l.map (retime version tM tW tMod tR))
      = recordTuples hash l := by
  unfold recordTuples
  rw [List.map_map]
  apply List.map_congr_left
  intro m _
  show recordRow hash (retime version tM tW tMod tR m) = recordRow hash m
  unfold recordRow
  rw [retime_filename, retime_contents]

theorem recordMember_retime (hash : String → String)
    (sourceFiles : List Member)
    (version platTag description : String) (buildNumber : Nat)
    (tMeta tWheel tModule tRecord tM tW tMod tR : Nat)
    (hsrc : ∀ f ∈ sourceFiles, f.filename ∉ synthPaths version) :
    recordMember hash sourceFiles version platTag description buildNumber
        tM tW tMod tR
      = retime version tM tW tMod tR
          (recordMember hash sourceFiles version platTag description
            buildNumber tMeta tWheel tModule tRecord) := by
  have hcontents :
      recordTuples hash (injectedFiles sourceFiles version platTag
        description buildNumber tM tW tMod)
      = recordTuples hash (injectedFiles sourceFiles version platTag
        description buildNumber tMeta tWheel tModule) := by
    rw [injectedFiles_retime sourceFiles version platTag description
      buildNumber tMeta tWheel tModule tM tW tMod tR hsrc]
    rw [recordTuples_map_retime]
  show (⟨recordPath version, tR, defaultMode,
      csvContent (recordTuples hash (injectedFiles sourceFiles version
        platTag description buildNumber tM tW tMod))⟩ : Member) = _
  rw [hcontents]
  exact (retime_recordPathMember version tM tW tMod tR tRecord defaultMode
    _).symm

theorem buildMembers_retime (hash : String → String)
    (sourceFiles : List Member)
    (version platTag description : String) (buildNumber : Nat)
    (tMeta tWheel tModule tRecord tM tW tMod tR : Nat)
    (hsrc : ∀ f ∈ sourceFiles, f.filename ∉ synthPaths version) :
    buildMembers hash sourceFiles version platTag description buildNumber
        tM tW tMod tR
      = (buildMembers hash sourceFiles version platTag description
          buildNumber tMeta tWheel tModule tRecord).map
          (retime version tM tW tMod tR) := by
  unfold buildMembers
  rw [← stableSort_map (prioLe version) _ (prioLe_retime version tM tW tMod tR)]
  rw [← stableSort_map filenameLe _ (filenameLe_retime version tM tW tMod tR)]
  rw [List.map_append]
  simp only [List.map_cons, List.map_nil]
  rw [← injectedFiles_retime sourceFiles version platTag description
    buildNumber tMeta tWheel tModule tM tW tMod tR hsrc]
  rw [← recordMember_retime hash sourceFiles version platTag description
    buildNumber tMeta tWheel tModule tRecord tM tW tMod tR hsrc]

set_option maxRecDepth 8192 in
/-- Claim C2 is false as stated: two runs that differ only in the
METADATA write time are NOT byte-identical after ignoring the wrapper
module's timestamp — METADATA's stored timestamp also differs (so do
WHEEL's and RECORD's in general).  Concrete counterexample. -/
theorem claim2_counterexample :
    ¬ (stripModuleTime (buildMembers (fun _ => "h") [] "1" "p" "d" 0 5 6 7 8)
      = stripModuleTime
          (buildMembers (fun _ => "h") [] "1" "p" "d" 0 9 6 7 8)) := by
  decide

/-- Claim C2 (amended): determinism — two runs of the assembler over an
identical source tree with identical metadata inputs produce
byte-identical member sequences except for the timestamps of the four
synthesized members (METADATA, WHEEL, the wrapper module and RECORD),
which carry each run's own write times. -/
theorem claim2_theorem (hash : String → String) (sourceFiles : List Member)
    (version platTag description : String) (buildNumber : Nat)
    (tMeta tWheel tModule tRecord tM tW tMod tR : Nat)
    (hsrc : ∀ f ∈ sourceFiles, f.filename ∉ synthPaths version) :
    stripSynthTimes version
        (buildMembers hash sourceFiles version platTag description
          buildNumber tMeta tWheel tModule tRecord)
      = stripSynthTimes version
        (buildMembers hash sourceFiles version platTag description
          buildNumber tM tW tMod tR) := by
  rw [buildMembers_retime hash sourceFiles version platTag description
    buildNumber tMeta tWheel tModule tRecord tM tW tMod tR hsrc]
  unfold stripSynthTimes
  rw [List.map_map]
  apply List.map_congr_left
  intro m _
  show (if m.filename ∈ synthPaths version then setTime 0 m else m)
      = (if (retime version tM tW tMod tR m).filename ∈ synthPaths version
          then setTime 0 (retime version tM tW tMod tR m)
          else retime version tM tW tMod tR m)
  rw [retime_filename]
  by_cases h : m.filename ∈ synthPaths version
  · rw [if_pos h, if_pos h, setTime_retime]
  · rw [if_neg h, if_neg h, retime_eq_self h]

set_option maxRecDepth 8192 in
/-- Witness for amended claim C2 at a concrete pair of runs. -/
theorem claim2_witness :
    stripSynthTimes "1"
        (buildMembers (fun _ => "h") [⟨"a", 3, 4, "X"⟩] "1" "p" "d" 0 5 6 7 8)
      = stripSynthTimes "1"
        (buildMembers (fun _ => "h") [⟨"a", 3, 4, "X"⟩] "1" "p" "d" 0
          9 10 11 12) :=
  claim2_theorem (fun _ => "h") [⟨"a", 3, 4, "X"⟩] "1" "p" "d" 0
    5 6 7 8 9 10 11 12 (by decide)

/-! Claim C10: the last two members of the archive. -/

theorem getLast?_of_pairwise {α : Type} {R : α → α → Prop} :
    ∀ l : List α, l.Pairwise R → ∀ x, x ∈ l →
      (∀ y ∈ l, R x y → y = x) → l.getLast? = some x
  | [], _, x, hx, _ => absurd hx (List.not_mem_nil x)
  | [a], _, x, hx, _ => by
      rw [List.mem_singleton] at hx
      rw [hx]
      rfl
  | a :: b :: t, hp, x, hx, hmax => by
      rw [List.getLast?_cons_cons]
      rcases List.mem_cons.mp hx with heq | hxt
      · have hRb : R x b := by
          rw [heq]
          exact (List.pairwise_cons.mp hp).1 b (List.mem_cons_self _ _)
        have hbx : b = x :=
          hmax b (List.mem_cons_of_mem _ (List.mem_cons_self _ _)) hRb
        exact getLast?_of_pairwise (b :: t) (List.pairwise_cons.mp hp).2 x
          (List.mem_cons.mpr (Or.inl hbx.symm))
          (fun y hy hR => hmax y (List.mem_cons_of_mem _ hy) hR)
      · exact getLast?_of_pairwise (b :: t) (List.pairwise_cons.mp hp).2 x
          hxt (fun y hy hR => hmax y (List.mem_cons_of_mem _ hy) hR)

theorem buildMembers_filenames_nodup (hash : String → String)
    (sourceFiles : List Member)
    (version platTag description : String) (buildNumber : Nat)
    (tMeta tWheel tModule tRecord : Nat)
    (hsrc1 : ∀ f ∈ sourceFiles,
      isRelativeTo f.filename (distInfoBasename version) = false)
    (hsrc2 : ∀ f ∈ sourceFiles, f.filename ≠ modulePath)
    (hnodup : (sourceFiles.map Member.filename).Nodup) :
    ((buildMembers hash sourceFiles version platTag description buildNumber
      tMeta tWheel tModule tRecord).map Member.filename).Nodup := by
  apply ((buildMembers_perm hash sourceFiles version platTag description
    buildNumber tMeta tWheel tModule tRecord).map Member.filename).nodup_iff.mpr
  have hshape : ((injectedFiles sourceFiles version platTag description
        buildNumber tMeta tWheel tModule ++
        [recordMember hash sourceFiles version platTag description
          buildNumber tMeta tWheel tModule tRecord]).map Member.filename)
      = sourceFiles.map Member.filename ++
        [metadataPath version, wheelPath version, modulePath,
          recordPath version] := by
    rw [List.map_append, injectedFiles_filenames]
    simp [List.append_assoc]
    rfl
  rw [hshape]
  apply List.Nodup.append hnodup
  · refine List.nodup_cons.mpr ⟨?_, List.nodup_cons.mpr ⟨?_,
      List.nodup_cons.mpr ⟨?_, List.nodup_singleton _⟩⟩⟩
    · intro hmem
      rcases List.mem_cons.mp hmem with h | hmem
      · exact metadataPath_ne_wheelPath version h
      · rcases List.mem_cons.mp hmem with h | hmem
        · exact modulePath_ne_metadataPath version h.symm
        · rw [List.mem_singleton] at hmem
          exact metadataPath_ne_recordPath version hmem
    · intro hmem
      rcases List.mem_cons.mp hmem with h | hmem
      · exact modulePath_ne_wheelPath version h.symm
      · rw [List.mem_singleton] at hmem
        exact wheelPath_ne_recordPath version hmem
    · intro hmem
      rw [List.mem_singleton] at hmem
      exact modulePath_ne_recordPath version hmem
  · intro p hp hq
    rcases List.mem_map.mp hp with ⟨f, hf, rfl⟩
    rcases List.mem_cons.mp hq with h | hq
    · have := hsrc1 f hf
      rw [h, isRelativeTo_metadataPath] at this
      cases this
    · rcases List.mem_cons.mp hq with h | hq
      · have := hsrc1 f hf
        rw [h, isRelativeTo_wheelPath] at this
        cases this
      · rcases List.mem_cons.mp hq with h | hq
        · exact hsrc2 f hf h
        · rw [List.mem_singleton] at hq
          have := hsrc1 f hf
          rw [hq, isRelativeTo_recordPath] at this
          cases this

theorem buildMembers_prio_two (hash : String → String)
    (sourceFiles : List Member)
    (version platTag description : String) (buildNumber : Nat)
    (tMeta tWheel tModule tRecord : Nat)
    (hsrc1 : ∀ f ∈ sourceFiles,
      isRelativeTo f.filename (distInfoBasename version) = false)
    {m : Member}
    (hm : m ∈ buildMembers hash sourceFiles version platTag description
      buildNumber tMeta tWheel tModule tRecord)
    (h2 : 2 ≤ prio version m) :
    m = metadataMember version description tMeta ∨
      m = wheelMember version platTag buildNumber tWheel ∨
      m = recordMember hash sourceFiles version platTag description
        buildNumber tMeta tWheel tModule tRecord := by
  have hrel := prio_two_isRelativeTo h2
  have hmem := (buildMembers_mem_iff hash sourceFiles version platTag
    description buildNumber tMeta tWheel tModule tRecord).mp hm
  rcases List.mem_append.mp hmem with hmem | hmem
  · unfold injectedFiles at hmem
    rcases List.mem_append.mp hmem with hs | hsyn
    · have := hsrc1 m hs
      rw [hrel] at this
      cases this
    · rcases List.mem_cons.mp hsyn with h | hsyn
      · exact Or.inl h
      · rcases List.mem_cons.mp hsyn with h | hsyn
        · exact Or.inr (Or.inl h)
        · rw [List.mem_singleton] at hsyn
          rw [hsyn] at hrel
          rw [show (moduleMember tModule).filename = modulePath from rfl,
            isRelativeTo_modulePath] at hrel
          cases hrel
  · rw [List.mem_singleton] at hmem
    exact Or.inr (Or.inr hmem)

theorem metadataPath_lt_wheelPath (v : String) :
    metadataPath v < wheelPath v :=
  (metadataPath_lt_recordPath v).trans (recordPath_lt_wheelPath v)

/-- Claim C10: because the dist-info bucket, placed last, consists
exactly of METADATA, RECORD and WHEEL in alphabetical order, the last
member written to the archive is the WHEEL file and RECORD is the
second-to-last member, not the final one. -/
theorem claim10_theorem (hash : String → String) (sourceFiles : List Member)
    (version platTag description : String) (buildNumber : Nat)
    (tMeta tWheel tModule tRecord : Nat)
    (hsrc1 : ∀ f ∈ sourceFiles,
      isRelativeTo f.filename (distInfoBasename version) = false)
    (hsrc2 : ∀ f ∈ sourceFiles, f.filename ≠ modulePath)
    (hnodup : (sourceFiles.map Member.filename).Nodup) :
    (buildMembers hash sourceFiles version platTag description buildNumber
        tMeta tWheel tModule tRecord).getLast?
      = some (wheelMember version platTag buildNumber tWheel) ∧
    (buildMembers hash sourceFiles version platTag description buildNumber
        tMeta tWheel tModule tRecord).dropLast.getLast?
      = some (recordMember hash sourceFiles version platTag description
          buildNumber tMeta tWheel tModule tRecord) := by
  have hpw := buildMembers_pairwise hash sourceFiles version platTag
    description buildNumber tMeta tWheel tModule tRecord
  have hWmem : wheelMember version platTag buildNumber tWheel ∈
      buildMembers hash sourceFiles version platTag description buildNumber
        tMeta tWheel tModule tRecord := by
    apply (buildMembers_mem_iff hash sourceFiles version platTag description
      buildNumber tMeta tWheel tModule tRecord).mpr
    apply List.mem_append_left
    unfold injectedFiles
    apply List.mem_append_right
    exact List.mem_cons_of_mem _ (List.mem_cons_self _ _)
  have hRmem : recordMember hash sourceFiles version platTag description
      buildNumber tMeta tWheel tModule tRecord ∈
      buildMembers hash sourceFiles version platTag description buildNumber
        tMeta tWheel tModule tRecord := by
    apply (buildMembers_mem_iff hash sourceFiles version platTag description
      buildNumber tMeta tWheel tModule tRecord).mpr
    exact List.mem_append_right _ (List.mem_singleton.mpr rfl)
  have hmaxW : ∀ y ∈ buildMembers hash sourceFiles version platTag
      description buildNumber tMeta tWheel tModule tRecord,
      lexR version (wheelMember version platTag buildNumber tWheel) y →
      y = wheelMember version platTag buildNumber tWheel := by
    intro y hy hR
    have h2 : 2 ≤ prio version y := by
      have h := hR.1
      rw [prio_wheelMember] at h
      exact h
    rcases buildMembers_prio_two hash sourceFiles version platTag
      description buildNumber tMeta tWheel tModule tRecord hsrc1 hy h2
      with h | h | h
    · exfalso
      have hle := hR.2 (by
        rw [prio_wheelMember, h, prio_metadataMember])
      rw [h] at hle
      exact absurd hle (not_le.mpr (metadataPath_lt_wheelPath version))
    · exact h
    · exfalso
      have hle := hR.2 (by
        rw [prio_wheelMember, h, prio_recordMember])
      rw [h] at hle
      exact absurd hle (not_le.mpr (recordPath_lt_wheelPath version))
  have hlast := getLast?_of_pairwise _ hpw _ hWmem hmaxW
  refine ⟨hlast, ?_⟩
  have hne : buildMembers hash sourceFiles version platTag description
      buildNumber tMeta tWheel tModule tRecord ≠ [] :=
    List.ne_nil_of_mem hWmem
  have hgl : (buildMembers hash sourceFiles version platTag description
      buildNumber tMeta tWheel tModule tRecord).getLast hne
      = wheelMember version platTag buildNumber tWheel := by
    have h := List.getLast?_eq_getLast _ hne
    rw [hlast] at h
    exact (Option.some.injEq _ _).mp h.symm
  have hout : (buildMembers hash sourceFiles version platTag description
        buildNumber tMeta tWheel tModule tRecord).dropLast ++
        [wheelMember version platTag buildNumber tWheel]
      = buildMembers hash sourceFiles version platTag description
        buildNumber tMeta tWheel tModule tRecord := by
    rw [← hgl]
    exact List.dropLast_concat_getLast hne
  have hpw' := List.Pairwise.sublist (List.dropLast_sublist _) hpw
  have hRW : recordMember hash sourceFiles version platTag description
        buildNumber tMeta tWheel tModule tRecord
      ≠ wheelMember version platTag buildNumber tWheel := by
    intro h
    exact wheelPath_ne_recordPath version
      (congrArg Member.filename h).symm
  have hRmem' : recordMember hash sourceFiles version platTag description
      buildNumber tMeta tWheel tModule tRecord ∈
      (buildMembers hash sourceFiles version platTag description
        buildNumber tMeta tWheel tModule tRecord).dropLast := by
    rw [← hout] at hRmem
    rcases List.mem_append.mp hRmem with h | h
    · exact h
    · rw [List.mem_singleton] at h
      exact absurd h hRW
  have hWnot : wheelMember version platTag buildNumber tWheel ∉
      (buildMembers hash sourceFiles version platTag description
        buildNumber tMeta tWheel tModule tRecord).dropLast := by
    have hnod := buildMembers_filenames_nodup hash sourceFiles version
      platTag description buildNumber tMeta tWheel tModule tRecord
      hsrc1 hsrc2 hnodup
    rw [← hout, List.map_append] at hnod
    have hdisj := (List.nodup_append.mp hnod).2.2
    intro hmem
    exact List.disjoint_left.mp hdisj
      (List.mem_map_of_mem Member.filename hmem)
      (List.mem_singleton.mpr rfl)
  have hmaxR : ∀ y ∈ (buildMembers hash sourceFiles version platTag
      description buildNumber tMeta tWheel tModule tRecord).dropLast,
      lexR version (recordMember hash sourceFiles version platTag
        description buildNumber tMeta tWheel tModule tRecord) y →
      y = recordMember hash sourceFiles version platTag description
        buildNumber tMeta tWheel tModule tRecord := by
    intro y hy hR
    have hyout := List.mem_of_mem_dropLast hy
    have h2 : 2 ≤ prio version y := by
      have h := hR.1
      rw [prio_recordMember] at h
      exact h
    rcases buildMembers_prio_two hash sourceFiles version platTag
      description buildNumber tMeta tWheel tModule tRecord hsrc1 hyout h2
      with h | h | h
    · exfalso
      have hle := hR.2 (by
        rw [prio_recordMember, h, prio_metadataMember])
      rw [h] at hle
      exact absurd hle (not_le.mpr (metadataPath_lt_recordPath version))
    · exact absurd (h ▸ hy) hWnot
    · exact h
  exact getLast?_of_pairwise _ hpw' _ hRmem' hmaxR

set_option maxRecDepth 8192 in
/-- Witness for claim C10 at a concrete build with one source file. -/
theorem claim10_witness :
    (buildMembers (fun _ => "h") [⟨"a", 3, 4, "X"⟩] "1" "p" "d" 0
        5 6 7 8).getLast?
      = some (wheelMember "1" "p" 0 6) ∧
    (buildMembers (fun _ => "h") [⟨"a", 3, 4, "X"⟩] "1" "p" "d" 0
        5 6 7 8).dropLast.getLast?
      = some (recordMember (fun _ => "h") [⟨"a", 3, 4, "X"⟩] "1" "p" "d" 0
          5 6 7 8) :=
  claim10_theorem (fun _ => "h") [⟨"a", 3, 4, "X"⟩] "1" "p" "d" 0 5 6 7 8
    (by decide) (by decide) (by decide)

end LilyPondWheels
